import Mathlib

/-!
Verification of the go-imap-backup tools.

The development shallowly embeds the pure logic of the three Go programs:

* namespace `DeleteFolder` — the folder-deletion tool (`delete-folder`):
  `sortMailboxesByDepth` and the retry loop of `deleteMailbox`.
* namespace `Canon` — `manage-duplicates.go`: the canonical content
  fingerprint `computeEmailHash`, the grouper `findDuplicates`, and the
  batched `scanMailbox` loop.
* namespace `Dedup` — the raw-hash duplicate manager: folder filtering
  (`listMailboxes`), the planner (`promptForChoice` and the planning loop
  of `main`), and the control flow of `main`.

Remote-session effects (connect, select, fetch, store, expunge, delete)
are modelled by explicit result values handed to the embedded control
flow, so each embedded function is a pure function of the sequence of
results the IMAP session would deliver.
-/

namespace GoImapBackup

namespace DeleteFolder

/-- Message metadata kept per message (struct `MessageInfo`). -/
structure MessageInfo where
  subject : String
  date : String
deriving DecidableEq

/-- Mailbox listing entry (struct `MailboxInfo`). -/
structure MailboxInfo where
  name : String
  messages : Nat
  messagesList : List MessageInfo
deriving DecidableEq

/-- Depth of a mailbox name: `strings.Count(name, "/")`, the number of
occurrences of the hierarchy delimiter. -/
def depth (s : String) : Nat := s.data.countP (fun c => c == '/')

/-- The ordering established by the comparator passed to `sort.Slice` in
`sortMailboxesByDepth`: the comparator is `depthI > depthJ`, so in the
sorted output every earlier element has depth at least that of every
later element. -/
def depthGe (a b : MailboxInfo) : Prop := depth b.name ≤ depth a.name

instance : DecidableRel depthGe := fun a b => Nat.decLe (depth b.name) (depth a.name)

instance : IsTotal MailboxInfo depthGe :=
  ⟨fun a b => (Nat.le_total (depth b.name) (depth a.name)).imp id id⟩

instance : IsTrans MailboxInfo depthGe :=
  ⟨fun _ _ _ h1 h2 => Nat.le_trans h2 h1⟩

/-- Model of `sortMailboxesByDepth`: the Go function copies the slice and
sorts it with `sort.Slice` under the comparator `depth(i) > depth(j)`.
`sort.Slice` guarantees exactly that the result is a permutation of the
input that is sorted with respect to the comparator (it is not guaranteed
stable); the model realises that contract with insertion sort, and no
theorem below depends on the relative order of equal-depth entries. -/
def sortMailboxesByDepth (mailboxes : List MailboxInfo) : List MailboxInfo :=
  List.insertionSort depthGe mailboxes

/-- Outcome of one IMAP call inside `deleteMailbox`: success, an error
whose text contains "Not logged in", or any other error. -/
inductive StepResult where
  | ok
  | notLoggedIn
  | otherErr (msg : String)
deriving DecidableEq

/-- The session results one iteration of the `deleteMailbox` retry loop
would observe: the result of `reconnect()` (consulted only on retries),
of `Select`, the message count of the selected mailbox, and the results
of `Store`, `Expunge` and `Delete`. -/
structure AttemptEnv where
  reconnectOk : Bool
  selectRes : StepResult
  messages : Nat
  storeRes : StepResult
  expungeRes : StepResult
  deleteRes : StepResult

/-- Classification of one loop iteration of `deleteMailbox`:
`success` models reaching `return nil`, `transient` models every `continue`
(failed reconnect, or a step error containing "Not logged in"), and
`permanent` models an early `return fmt.Errorf(...)`. -/
inductive AttemptOutcome where
  | success
  | transient
  | permanent (msg : String)
deriving DecidableEq

/-- One iteration of the `deleteMailbox` loop body, from the top of the
loop to `return nil`, a `continue`, or an error return. `first` is true
for `attempts == 0`, where no reconnect happens. -/
def attemptStep (first : Bool) (a : AttemptEnv) : AttemptOutcome :=
  if !first && !a.reconnectOk then .transient
  else
    match a.selectRes with
    | .notLoggedIn => .transient
    | .otherErr m => .permanent ("error selecting mailbox: " ++ m)
    | .ok =>
      let deleteStep : AttemptOutcome :=
        match a.deleteRes with
        | .notLoggedIn => .transient
        | .otherErr m => .permanent ("error deleting mailbox: " ++ m)
        | .ok => .success
      if a.messages > 0 then
        match a.storeRes with
        | .notLoggedIn => .transient
        | .otherErr m => .permanent ("error marking messages as deleted: " ++ m)
        | .ok =>
          match a.expungeRes with
          | .notLoggedIn => .transient
          | .otherErr m => .permanent ("error expunging messages: " ++ m)
          | .ok => deleteStep
      else deleteStep

/-- The `for attempts := 0; attempts < 3; attempts++` loop of
`deleteMailbox`, with `fuel` the number of attempts still allowed and
`attempts` the current index. -/
def deleteMailboxAux (env : Nat → AttemptEnv) : Nat → Nat → Except String Unit
  | 0, _ => .error "failed to delete mailbox after 3 attempts"
  | fuel + 1, attempts =>
    match attemptStep (attempts == 0) (env attempts) with
    | .success => .ok ()
    | .permanent m => .error m
    | .transient => deleteMailboxAux env fuel (attempts + 1)

/-- Model of `deleteMailbox`: three attempts, indexed from 0; `env k`
gives the session results attempt `k` would observe. -/
def deleteMailbox (env : Nat → AttemptEnv) : Except String Unit :=
  deleteMailboxAux env 3 0

/-- Attempt results in which `Select` fails with a session-validity error. -/
def staleAttempt : AttemptEnv := ⟨true, .notLoggedIn, 0, .ok, .ok, .ok⟩

/-- Attempt results in which every step succeeds (empty mailbox, so the
store and expunge steps are not reached). -/
def cleanAttempt : AttemptEnv := ⟨true, .ok, 0, .ok, .ok, .ok⟩

/-- Attempt results in which `Select` fails with an error that is not a
session-validity error. -/
def brokenAttempt : AttemptEnv := ⟨true, .otherErr "mailbox busy", 0, .ok, .ok, .ok⟩

/-- A run whose first two attempts hit a stale session and whose third
succeeds. -/
def envTwoStale : Nat → AttemptEnv := fun k => if k < 2 then staleAttempt else cleanAttempt

/-- A run in which every attempt hits a stale session. -/
def envAllStale : Nat → AttemptEnv := fun _ => staleAttempt

/-- A run whose first attempt hits a non-session error. -/
def envBrokenFirst : Nat → AttemptEnv := fun _ => brokenAttempt

end DeleteFolder

/-- Model of `strings.HasPrefix`, computed on the character lists so that
it evaluates inside the kernel. -/
def hasPrefix (s pre : String) : Bool := pre.data.isPrefixOf s.data

namespace Canon

/-- One event of the part iteration of `mail.Reader.NextPart` as consumed
by `computeEmailHash`: either a body part with its declared Content-Type
header and its decoded content (`none` when `io.ReadAll` on the part body
fails), or a non-EOF iteration error. -/
inductive PartEvent where
  | part (contentType : String) (body : Option String)
  | readError (msg : String)
deriving DecidableEq

/-- A parsed message as `computeEmailHash` sees it: the `Subject` and
`Date` header values (empty string when the header is absent, as
`header.Get` returns) and the sequence of part events. -/
structure MailMessage where
  subject : String
  date : String
  parts : List PartEvent
deriving DecidableEq

/-- The content-type test of the `switch` in `computeEmailHash`: the three
cases `text/plain`, `text/html` and `application/` are all matched with
`strings.HasPrefix` and all feed the part content into the hash. -/
def includedPart (contentType : String) : Bool :=
  hasPrefix contentType "text/plain" || hasPrefix contentType "text/html" ||
    hasPrefix contentType "application/"

/-- The part loop of `computeEmailHash`: the bytes each part contributes
to the hash, concatenated in part order. A part of an included content
type whose body read fails contributes nothing (`if err == nil`); a
`NextPart` error that is not EOF aborts the whole computation. -/
def hashParts : List PartEvent → Except String String
  | [] => .ok ""
  | .readError m :: _ => .error m
  | .part contentType body :: rest =>
    match hashParts rest with
    | .error e => .error e
    | .ok tail =>
      if includedPart contentType then
        match body with
        | some content => .ok (content ++ tail)
        | none => .ok tail
      else .ok tail

/-- Model of `computeEmailHash`, parameterised by the hex-encoded SHA-256
function (`hex.EncodeToString(h.Sum(nil))` over the written bytes): the
Subject value is written when non-empty, then the Date value when
non-empty, then the part contributions in order; the result is the hash of
everything written. -/
def computeEmailHash (sha256hex : String → String) (msg : MailMessage) :
    Except String String :=
  let afterSubject := if msg.subject ≠ "" then msg.subject else ""
  let afterDate := afterSubject ++ (if msg.date ≠ "" then msg.date else "")
  match hashParts msg.parts with
  | .error e => .error e
  | .ok body => .ok (sha256hex (afterDate ++ body))

/-- Concatenation of a list of strings, in order. -/
def concatAll (l : List String) : String := l.foldr (· ++ ·) ""

/-- Modelled from the spec (section 4.3, Canonical strategy), for
comparison with `computeEmailHash`: the canonical concatenation of the
Subject header value, the Date header value, and the decoded content of
every part whose declared content type is text/plain, text/html or
application/*, in part order, parts that fail to decode omitted. -/
def specHashInput (msg : MailMessage) : String :=
  msg.subject ++ msg.date ++
    concatAll (msg.parts.filterMap fun p =>
      match p with
      | .part contentType (some content) =>
        if includedPart contentType then some content else none
      | _ => none)

/-- One scanned message record (struct `EmailInfo` of
`manage-duplicates.go`); the envelope date is kept as its rendered text. -/
structure EmailInfo where
  mailbox : String
  uid : Nat
  subject : String
  date : String
  size : Nat
  hash : String
deriving DecidableEq

/-- A duplicate group (struct `DuplicateGroup`). -/
structure DuplicateGroup where
  emails : List EmailInfo
  hash : String
deriving DecidableEq

/-- One step of building `hashMap` in `findDuplicates`:
`hashMap[email.Hash] = append(hashMap[email.Hash], email)`. The Go map is
modelled as an association list keyed by first appearance of each hash. -/
def addToBucket (m : List (String × List EmailInfo)) (e : EmailInfo) :
    List (String × List EmailInfo) :=
  match m with
  | [] => [(e.hash, [e])]
  | (h, es) :: rest =>
    if h == e.hash then (h, es ++ [e]) :: rest else (h, es) :: addToBucket rest e

/-- The `hashMap` built by the first loop of `findDuplicates`: every input
record is appended to the bucket of its own hash, in input order. -/
def hashMapOf (emails : List EmailInfo) : List (String × List EmailInfo) :=
  emails.foldl addToBucket []

/-- Model of `findDuplicates`: emit one `DuplicateGroup` per hash-map
entry with more than one member. Go map iteration order is arbitrary; the
model iterates buckets in first-seen order, and no theorem below depends
on the order of the emitted groups. -/
def findDuplicates (emails : List EmailInfo) : List DuplicateGroup :=
  (hashMapOf emails).filterMap fun p =>
    if p.2.length > 1 then some ⟨p.2, p.1⟩ else none

/-- One message as delivered by a batch fetch in `scanMailbox`: `body` is
the parsed reader when `msg.GetBody(section)` is non-nil and
`mail.CreateReader` succeeds, and `none` when either fails (both paths
`continue`). -/
structure FetchedMsg where
  uid : Nat
  subject : String
  date : String
  size : Nat
  body : Option MailMessage
deriving DecidableEq

/-- The outcome of one background `Fetch` call: the records streamed over
the channel, and the completion status read from `done` after the channel
is exhausted (`some` error may be reported even after all records were
delivered). -/
structure FetchResult where
  messages : List FetchedMsg
  err : Option String

/-- The per-message body of the fetch-drain loop in `scanMailbox`: skip
messages without a parsable body and messages whose hashing fails,
otherwise build the `EmailInfo` record. -/
def processMsg (sha256hex : String → String) (mailboxName : String)
    (msg : FetchedMsg) : Option EmailInfo :=
  match msg.body with
  | none => none
  | some m =>
    match computeEmailHash sha256hex m with
    | .error _ => none
    | .ok h => some ⟨mailboxName, msg.uid, msg.subject, msg.date, msg.size, h⟩

/-- The fixed window size of the scanner (`batchSize := uint32(100)`). -/
def batchSize : Nat := 100

/-- The batch loop of `scanMailbox`
(`for i := uint32(1); i <= mbox.Messages; i += batchSize`): each batch
drains every delivered record first and only then observes the completion
status from `done`; an error there abandons the whole scan (`return nil,
err`), discarding all records collected so far. `fetch from to` gives the
result of the background fetch for the window `[from, to]`. The first
`Nat` argument is recursion fuel bounding the number of iterations; every
iteration advances `i` by `batchSize ≥ 1`, so any fuel of at least
`n + 1 - i` is beyond the iteration count of the Go loop and reproduces it
exactly. -/
def scanLoop (sha256hex : String → String) (mailboxName : String)
    (fetch : Nat → Nat → FetchResult) (n : Nat) :
    Nat → Nat → Except String (List EmailInfo)
  | 0, _ => .ok []
  | fuel + 1, i =>
    if i ≤ n then
      let res := fetch i (min (i + batchSize - 1) n)
      let batch := res.messages.filterMap (processMsg sha256hex mailboxName)
      match res.err with
      | some e => .error ("error fetching messages: " ++ e)
      | none =>
        match scanLoop sha256hex mailboxName fetch n fuel (i + batchSize) with
        | .error e => .error e
        | .ok rest => .ok (batch ++ rest)
    else .ok []

/-- The window starts the batch loop visits: `i, i+batchSize, ...` while
the start is at most `n`, with the same fuel convention as `scanLoop`. -/
def batchStarts (n : Nat) : Nat → Nat → List Nat
  | 0, _ => []
  | fuel + 1, i => if i ≤ n then i :: batchStarts n fuel (i + batchSize) else []

/-- Model of `scanMailbox`: a failed `Select` aborts the scan of this
mailbox; an empty mailbox yields no records without issuing any fetch;
otherwise the batch loop runs from sequence number 1 (fuel `n` covers all
its iterations, since they number at most `n`). -/
def scanMailbox (sha256hex : String → String) (mailboxName : String)
    (selectRes : Except String Nat) (fetch : Nat → Nat → FetchResult) :
    Except String (List EmailInfo) :=
  match selectRes with
  | .error e => .error ("error selecting mailbox: " ++ e)
  | .ok n =>
    if n == 0 then .ok [] else scanLoop sha256hex mailboxName fetch n n 1

/-- A concrete duplicated record for evaluating the grouper. -/
def wEmail1 : EmailInfo := ⟨"INBOX", 1, "A", "d1", 10, "h1"⟩

/-- A second record with the same fingerprint as `wEmail1`. -/
def wEmail2 : EmailInfo := ⟨"Sent", 2, "A", "d1", 10, "h1"⟩

/-- A record with a fingerprint of its own. -/
def wEmail3 : EmailInfo := ⟨"INBOX", 3, "B", "d2", 20, "h2"⟩

/-- A concrete scan result with one duplicate pair and one singleton. -/
def wEmails : List EmailInfo := [wEmail1, wEmail2, wEmail3]

/-- A concrete parsed message with an included text part, an excluded
image part, an included-type part whose decode fails, and an included
html part. -/
def wMsg : MailMessage :=
  ⟨"Invoice", "Mon, 1 Jan 2024",
    [.part "text/plain; charset=utf-8" (some "hello"),
     .part "image/png" (some "PNGDATA"),
     .part "application/pdf" none,
     .part "text/html" (some "<p>hi</p>")]⟩

/-- A fetch oracle that delivers one record and then reports an error. -/
def wFetchErr : Nat → Nat → FetchResult :=
  fun _ _ => ⟨[⟨7, "S", "D", 5, none⟩], some "boom"⟩

end Canon

namespace Dedup

/-- The excluded-folder substrings installed by `connectIMAP` of the
raw-hash duplicate manager. -/
def excludedFolders : List String :=
  ["trash", "corbeille", "deleted", "deleted messages",
   "deleted items", "elements supprimes", "éléments supprimés",
   "bin", "junk", "spam", "[gmail]/trash",
   "[google mail]/trash", "[gmail]/corbeille",
   "[gmail]/spam", "[gmail]/junk"]

/-- Model of `unicode.ToLower`, applied rune-wise by `strings.ToLower`,
on the characters that can affect matching against `excludedFolders`:
ASCII uppercase and the Latin-1 uppercase range `U+00C0`–`U+00DE` (bar
the multiplication sign `U+00D7`) map down by 32, exactly the Unicode
simple lowercase mapping on those blocks (so `É` becomes `é`), and the
five characters outside these blocks whose simple lowercase re-enters
them — İ (`U+0130`), Ÿ (`U+0178`), ẞ (`U+1E9E`), the Kelvin sign
(`U+212A`) and the Angstrom sign (`U+212B`) — are mapped explicitly.
Every remaining character is left unchanged; Go lowers some of those
within their own blocks, but then both the character and its Go image lie
outside Basic Latin and Latin-1, where every character of every excluded
substring lives, so neither can equal a character of an excluded
substring and `isExcludedFolder` agrees with the program on all names. -/
def goToLower (c : Char) : Char :=
  if 0x41 ≤ c.toNat ∧ c.toNat ≤ 0x5A then Char.ofNat (c.toNat + 32)
  else if 0xC0 ≤ c.toNat ∧ c.toNat ≤ 0xDE ∧ c.toNat ≠ 0xD7 then
    Char.ofNat (c.toNat + 32)
  else if c.toNat = 0x130 then Char.ofNat 0x69
  else if c.toNat = 0x178 then Char.ofNat 0xFF
  else if c.toNat = 0x1E9E then Char.ofNat 0xDF
  else if c.toNat = 0x212A then Char.ofNat 0x6B
  else if c.toNat = 0x212B then Char.ofNat 0xE5
  else c

/-- Model of `strings.ToLower`: `goToLower` applied to every character. -/
def toLowerStr (s : String) : String := ⟨s.data.map goToLower⟩

/-- Model of `strings.Contains`: `needle` occurs as a contiguous substring
of `hay`. -/
def containsSub (needle : List Char) : List Char → Bool
  | [] => needle.isPrefixOf []
  | c :: t => needle.isPrefixOf (c :: t) || containsSub needle t

/-- Model of `isExcludedFolder`: some excluded substring occurs in the
lower-cased folder name. -/
def isExcludedFolder (name : String) : Bool :=
  excludedFolders.any fun ex => containsSub ex.data (toLowerStr name).data

/-- The per-folder keep decision of the `listMailboxes` loop: not
excluded, and matching the target-folder restriction when one is set. -/
def keepBox (targetFolder : String) (name : String) : Bool :=
  !isExcludedFolder name &&
    (targetFolder == "" || hasPrefix name targetFolder)

/-- Model of `listMailboxes`: `boxes` is the server-streamed folder list
in server order and `listErr` the completion status of the `List` call,
observed after the stream is drained. A configured target folder with no
surviving entry is an error; without a target folder an empty result is
returned as is. -/
def listMailboxes (targetFolder : String) (boxes : List String)
    (listErr : Option String) : Except String (List String) :=
  let kept := boxes.filter (keepBox targetFolder)
  match listErr with
  | some e => .error e
  | none =>
    if targetFolder != "" && kept.length == 0 then
      .error ("no mailboxes found matching target folder: " ++ targetFolder)
    else .ok kept

/-- One scanned record of the raw-hash duplicate manager (its `EmailInfo`
struct, including the content preview field). -/
structure EmailInfo where
  mailbox : String
  uid : Nat
  subject : String
  date : String
  size : Nat
  hash : String
  content : String
deriving DecidableEq

/-- A duplicate group of the raw-hash duplicate manager. -/
structure DuplicateGroup where
  emails : List EmailInfo
  hash : String
deriving DecidableEq

/-- One step of building the `hashMap` of this tool's `findDuplicates`. -/
def addToBucket (m : List (String × List EmailInfo)) (e : EmailInfo) :
    List (String × List EmailInfo) :=
  match m with
  | [] => [(e.hash, [e])]
  | (h, es) :: rest =>
    if h == e.hash then (h, es ++ [e]) :: rest else (h, es) :: addToBucket rest e

/-- The `hashMap` of this tool's `findDuplicates`: records with an empty
hash are skipped (`if email.Hash != ""`); every other record is appended
to the bucket of its own hash. -/
def hashMapOf (emails : List EmailInfo) : List (String × List EmailInfo) :=
  emails.foldl (fun m e => if e.hash != "" then addToBucket m e else m) []

/-- This tool's `findDuplicates`: one group per bucket with more than one
member (bucket iteration modelled in first-seen order). -/
def findDuplicates (emails : List EmailInfo) : List DuplicateGroup :=
  (hashMapOf emails).filterMap fun p =>
    if p.2.length > 1 then some ⟨p.2, p.1⟩ else none

/-- ASCII whitespace for the model of `strings.TrimSpace`. -/
def isSpaceChar (c : Char) : Bool :=
  c == ' ' || c == '\t' || c == '\n' || c == '\r'

/-- Model of `strings.TrimSpace` (ASCII whitespace). -/
def trimSpace (s : String) : String :=
  ⟨((s.data.dropWhile isSpaceChar).reverse.dropWhile isSpaceChar).reverse⟩

/-- Digit-sequence evaluation for the model of `strconv.Atoi`. -/
def digitsToNat (acc : Nat) : List Char → Option Nat
  | [] => some acc
  | c :: t =>
    if c.isDigit then digitsToNat (acc * 10 + (c.toNat - '0'.toNat)) t
    else none

/-- Model of `strconv.Atoi` on the prompt's inputs: an optional sign
followed by decimal digits (overflow is not modelled; prompt choices are
small). -/
def atoi (s : String) : Option Int :=
  match s.data with
  | [] => none
  | '-' :: ds =>
    if ds = [] then none else (digitsToNat 0 ds).map (fun v => -(v : Int))
  | '+' :: ds =>
    if ds = [] then none else (digitsToNat 0 ds).map (fun v => (v : Int))
  | ds => (digitsToNat 0 ds).map (fun v => (v : Int))

/-- Model of `promptForChoice`, reduced to the decision logic: the result
is the kept index (`-1` for skip) and the jump-to-summary flag. In auto
mode the first member (index 0) is kept without reading input; dry-run
does the same; otherwise the trimmed input line (`none` models a read
error) selects quit, skip, or a 1-based index that must lie within the
group, anything else skipping the group. -/
def promptForChoice (groupSize : Nat) (dryRun autoMode : Bool)
    (input : Option String) : Int × Bool :=
  if autoMode then (0, false)
  else if dryRun then (0, false)
  else
    match input with
    | none => (-1, false)
    | some raw =>
      let s := trimSpace raw
      if s == "q" || s == "Q" then (-1, true)
      else if s == "s" || s == "S" then (-1, false)
      else
        match atoi s with
        | none => (-1, false)
        | some choice =>
          if choice < 1 || choice > (groupSize : Int) then (-1, false)
          else (choice - 1, false)

/-- The inner loop of the planner
(`for j, email := range group.Emails { if j != choice { append } }`),
carrying the running index `j`. -/
def keepOthersAux (choice : Int) (j : Nat) : List EmailInfo → List EmailInfo
  | [] => []
  | e :: t =>
    if (j : Int) = choice then keepOthersAux choice (j + 1) t
    else e :: keepOthersAux choice (j + 1) t

/-- All members of a group except the one at the chosen index. -/
def keepOthers (emails : List EmailInfo) (choice : Int) : List EmailInfo :=
  keepOthersAux choice 0 emails

/-- The planning loop of `main` over the duplicate groups: one prompt per
group (consuming one entry of `inputs`), the non-kept members of a
resolved group appended to the plan, nothing appended for a skipped group,
and a break on the jump-to-summary flag when not in auto mode. -/
def buildPlan (dryRun autoMode : Bool) :
    List DuplicateGroup → List (Option String) → List EmailInfo
  | [], _ => []
  | g :: rest, inputs =>
    let dec := promptForChoice g.emails.length dryRun autoMode (inputs.headD none)
    let contrib := if dec.1 != -1 then keepOthers g.emails dec.1 else []
    if dec.2 && !autoMode then contrib
    else contrib ++ buildPlan dryRun autoMode rest inputs.tail

/-- The observable outcome of a run of `main`: a `log.Fatalf` abort, or
one of its normal exits. -/
inductive RunOutcome where
  | fatal (msg : String)
  | noActions
  | dryRunReport (plan : List EmailInfo)
  | cancelled
  | executed (results : List (EmailInfo × Option String))
deriving DecidableEq

/-- The scan loop of `main`: a mailbox whose scan fails is logged and
skipped (`continue`), the others contribute their records in order. -/
def collectEmails (scan : String → Except String (List EmailInfo))
    (boxes : List String) : List EmailInfo :=
  boxes.flatMap fun mb =>
    match scan mb with
    | .error _ => []
    | .ok es => es

/-- Control flow of `main` after flag parsing and signal setup:
`connectRes` is the result of `connectIMAP`, `listRes` of
`listMailboxes`, `scan mb` of `scanMailbox(mb)`, `inputs` the stdin lines
offered to the per-group prompts, `confirm` the answer of
`confirmActions`, and `del e` the result of `deleteEmail(e)` (`none` is
success). Setup failures call `log.Fatalf`; a failed delete is printed
and the loop moves on, so every planned action is attempted. -/
def runMain (dryRun autoMode : Bool) (connectRes : Except String Unit)
    (listRes : Except String (List String))
    (scan : String → Except String (List EmailInfo))
    (inputs : List (Option String)) (confirm : Bool)
    (del : EmailInfo → Option String) : RunOutcome :=
  match connectRes with
  | .error e => .fatal ("Failed to connect to IMAP: " ++ e)
  | .ok () =>
    match listRes with
    | .error e => .fatal ("Error listing mailboxes: " ++ e)
    | .ok mailboxes =>
      let allEmails := collectEmails scan mailboxes
      let groups := findDuplicates allEmails
      let plan := buildPlan dryRun autoMode groups inputs
      if plan.length == 0 then .noActions
      else if dryRun then .dryRunReport plan
      else if !confirm then .cancelled
      else .executed (plan.map fun e => (e, del e))

/-- A concrete record for exercising the planner. -/
def dE1 : EmailInfo := ⟨"INBOX", 1, "A", "d1", 10, "h1", "c1"⟩

/-- A duplicate of `dE1` (same hash). -/
def dE2 : EmailInfo := ⟨"Sent", 2, "A", "d1", 10, "h1", "c2"⟩

/-- A third member of the same duplicate group. -/
def dE3 : EmailInfo := ⟨"Archive", 3, "A", "d1", 10, "h1", "c3"⟩

/-- A three-member duplicate group. -/
def dGroup : DuplicateGroup := ⟨[dE1, dE2, dE3], "h1"⟩

/-- A scan oracle with one failing mailbox and one mailbox holding a
duplicate pair. -/
def wScan : String → Except String (List EmailInfo) :=
  fun mb =>
    if mb == "bad" then .error "select failed"
    else if mb == "A" then .ok [dE1, dE2]
    else .ok []

/-- A delete oracle in which every deletion fails. -/
def wDel : EmailInfo → Option String := fun _ => some "delete failed"

end Dedup

end GoImapBackup

namespace GoImapBackup

namespace DeleteFolder

theorem depth_append (a b : String) : depth (a ++ b) = depth a + depth b := by
  simp [depth, String.data_append, List.countP_append]

theorem depth_lt_of_descendant {d a : String} (rest : String)
    (h : d = a ++ "/" ++ rest) : depth a < depth d := by
  rw [h, depth_append, depth_append]
  have h1 : depth "/" = 1 := rfl
  omega

/-- C2: `sortMailboxesByDepth` sorts mailboxes by depth (the number of
hierarchy-delimiter occurrences in the name) in descending order, so for
every ancestor/descendant pair present in the input the descendant
appears before the ancestor in the output; on the input
`["INBOX", "INBOX/Work", "INBOX/Work/2024"]` the output is
`["INBOX/Work/2024", "INBOX/Work", "INBOX"]`. -/
theorem sortMailboxesByDepth_descendants_first :
    (∀ (l : List MailboxInfo) (i j : Fin (sortMailboxesByDepth l).length),
        (∃ rest, ((sortMailboxesByDepth l).get i).name =
          ((sortMailboxesByDepth l).get j).name ++ "/" ++ rest) →
        (i : Nat) < (j : Nat)) ∧
    sortMailboxesByDepth
        [⟨"INBOX", 3, []⟩, ⟨"INBOX/Work", 2, []⟩, ⟨"INBOX/Work/2024", 1, []⟩] =
      [⟨"INBOX/Work/2024", 1, []⟩, ⟨"INBOX/Work", 2, []⟩, ⟨"INBOX", 3, []⟩] := by
  constructor
  · intro l i j h
    rcases h with ⟨rest, hname⟩
    have hs : (sortMailboxesByDepth l).Sorted depthGe :=
      List.sorted_insertionSort depthGe l
    have hlt := depth_lt_of_descendant rest hname
    by_contra hij
    push_neg at hij
    rcases Nat.eq_or_lt_of_le hij with heq | hji
    · have : j = i := Fin.ext heq
      rw [this] at hlt
      exact absurd hlt (lt_irrefl _)
    · have hge := hs.rel_get_of_lt (show j < i from hji)
      unfold depthGe at hge
      omega
  · rfl

/-- Witness for C2, instantiating the general ordering statement on the
sorted scenario list: the entry at position 0 is a descendant of the entry
at position 2, hence 0 < 2. -/
theorem sortMailboxesByDepth_descendants_first_witness : (0 : Nat) < 2 :=
  sortMailboxesByDepth_descendants_first.1
    [⟨"INBOX", 3, []⟩, ⟨"INBOX/Work", 2, []⟩, ⟨"INBOX/Work/2024", 1, []⟩]
    ⟨0, by decide⟩ ⟨2, by decide⟩ ⟨"Work/2024", by decide⟩

/-- C10: `sortMailboxesByDepth` returns a permutation of its input — every
mailbox occurs in the output exactly as often as in the input and nothing
else occurs (the Go function sorts a fresh copy made by
`append([]MailboxInfo{}, mailboxes...)`, leaving the input slice intact,
which the pure model reflects by construction). -/
theorem sortMailboxesByDepth_count (l : List MailboxInfo) (m : MailboxInfo) :
    (sortMailboxesByDepth l).count m = l.count m :=
  (List.perm_insertionSort depthGe l).count_eq m

theorem deleteMailbox_unfold (env : Nat → AttemptEnv) :
    deleteMailbox env =
      (match attemptStep true (env 0) with
       | .success => Except.ok ()
       | .permanent m => Except.error m
       | .transient =>
         (match attemptStep false (env 1) with
          | .success => Except.ok ()
          | .permanent m => Except.error m
          | .transient =>
            (match attemptStep false (env 2) with
             | .success => Except.ok ()
             | .permanent m => Except.error m
             | .transient =>
               Except.error "failed to delete mailbox after 3 attempts"))) := rfl

/-- C3: `deleteMailbox` retries only on a session-validity failure
("Not logged in"), restarting the whole select/store/expunge/delete
sequence, with a ceiling of 3 attempts: two transient failures followed by
a clean attempt succeed; three transient failures exhaust the budget and
report an error; a non-session failure is reported immediately, without
any further attempt; and a step that fails with "Not logged in" is exactly
what classifies an attempt as transient, while any other step error
aborts the action with that error. -/
theorem deleteMailbox_retry_policy (env : Nat → AttemptEnv) :
    (attemptStep true (env 0) = .transient →
      attemptStep false (env 1) = .transient →
      attemptStep false (env 2) = .success →
      deleteMailbox env = .ok ()) ∧
    (attemptStep true (env 0) = .transient →
      attemptStep false (env 1) = .transient →
      attemptStep false (env 2) = .transient →
      deleteMailbox env = .error "failed to delete mailbox after 3 attempts") ∧
    (∀ m, attemptStep true (env 0) = .permanent m →
      deleteMailbox env = .error m) ∧
    (∀ m, attemptStep true (env 0) = .transient →
      attemptStep false (env 1) = .permanent m →
      deleteMailbox env = .error m) ∧
    (∀ a m, a.selectRes = .otherErr m →
      attemptStep true a = .permanent ("error selecting mailbox: " ++ m)) ∧
    (∀ a, a.selectRes = .notLoggedIn → attemptStep true a = .transient) := by
  refine ⟨?_, ?_, ?_, ?_, ?_, ?_⟩
  · intro h0 h1 h2
    simp only [deleteMailbox_unfold, h0, h1, h2]
  · intro h0 h1 h2
    simp only [deleteMailbox_unfold, h0, h1, h2]
  · intro m h0
    simp only [deleteMailbox_unfold, h0]
  · intro m h0 h1
    simp only [deleteMailbox_unfold, h0, h1]
  · intro a m h
    simp [attemptStep, h]
  · intro a h
    simp [attemptStep, h]

/-- Witness for C3: a run with two stale-session attempts then a clean one
succeeds; a run with three stale attempts exhausts the budget; a run whose
first attempt hits a non-session error is abandoned with that error. -/
theorem deleteMailbox_retry_policy_witness :
    deleteMailbox envTwoStale = .ok () ∧
    deleteMailbox envAllStale = .error "failed to delete mailbox after 3 attempts" ∧
    deleteMailbox envBrokenFirst = .error "error selecting mailbox: mailbox busy" :=
  ⟨(deleteMailbox_retry_policy envTwoStale).1 (by decide) (by decide) (by decide),
   (deleteMailbox_retry_policy envAllStale).2.1 (by decide) (by decide) (by decide),
   (deleteMailbox_retry_policy envBrokenFirst).2.2.1
     "error selecting mailbox: mailbox busy" (by decide)⟩

end DeleteFolder

namespace Canon

theorem lookup_addToBucket (m : List (String × List EmailInfo)) (e : EmailInfo)
    (h : String) :
    List.lookup h (addToBucket m e) =
      if h = e.hash then some (((List.lookup h m).getD []) ++ [e])
      else List.lookup h m := by
  induction m with
  | nil =>
    by_cases hh : h = e.hash
    · have hb : (h == e.hash) = true := beq_iff_eq.mpr hh
      simp [addToBucket, List.lookup, hb, hh]
    · have hb : (h == e.hash) = false := beq_eq_false_iff_ne.mpr hh
      simp [addToBucket, List.lookup, hb, hh]
  | cons q rest ih =>
    obtain ⟨k, es⟩ := q
    by_cases h1 : k = e.hash
    · by_cases h2 : h = k
      · have hke : (k == e.hash) = true := beq_iff_eq.mpr h1
        have hhk : (h == k) = true := beq_iff_eq.mpr h2
        have hek : (e.hash == k) = true := beq_iff_eq.mpr h1.symm
        have hhe : h = e.hash := h2.trans h1
        simp [addToBucket, List.lookup, hke, hhk, hek, hhe]
      · have hke : (k == e.hash) = true := beq_iff_eq.mpr h1
        have hhk : (h == k) = false := beq_eq_false_iff_ne.mpr h2
        have hhe : ¬h = e.hash := fun hc => h2 (hc.trans h1.symm)
        simp [addToBucket, List.lookup, hke, hhk, hhe]
    · by_cases h2 : h = k
      · have hke : (k == e.hash) = false := beq_eq_false_iff_ne.mpr h1
        have hhk : (h == k) = true := beq_iff_eq.mpr h2
        have hhe : ¬h = e.hash := fun hc => h1 (h2.symm.trans hc)
        simp [addToBucket, List.lookup, hke, hhk, hhe]
      · have hke : (k == e.hash) = false := beq_eq_false_iff_ne.mpr h1
        have hhk : (h == k) = false := beq_eq_false_iff_ne.mpr h2
        simp [addToBucket, List.lookup, hke, hhk, ih]

theorem hashMapOf_append (l : List EmailInfo) (e : EmailInfo) :
    hashMapOf (l ++ [e]) = addToBucket (hashMapOf l) e := by
  simp [hashMapOf]

theorem hashMapOf_lookup (l : List EmailInfo) (h : String) :
    List.lookup h (hashMapOf l) =
      if l.filter (fun e => e.hash == h) = [] then none
      else some (l.filter (fun e => e.hash == h)) := by
  induction l using List.reverseRecOn with
  | nil => simp [hashMapOf]
  | append_singleton xs e ih =>
    rw [hashMapOf_append, lookup_addToBucket, List.filter_append]
    by_cases hh : h = e.hash
    · subst hh
      by_cases hf : xs.filter (fun x => x.hash == e.hash) = [] <;>
        simp [hf, ih]
    · have hb : (e.hash == h) = false := beq_eq_false_iff_ne.mpr (Ne.symm hh)
      simp [hh, hb, ih]

theorem keys_addToBucket (m : List (String × List EmailInfo)) (e : EmailInfo) :
    (addToBucket m e).map Prod.fst =
      if e.hash ∈ m.map Prod.fst then m.map Prod.fst
      else m.map Prod.fst ++ [e.hash] := by
  induction m with
  | nil => simp [addToBucket]
  | cons q rest ih =>
    obtain ⟨k, es⟩ := q
    by_cases h1 : k = e.hash
    · subst h1; simp [addToBucket]
    · have h1b : (k == e.hash) = false := beq_eq_false_iff_ne.mpr h1
      by_cases h2 : e.hash ∈ rest.map Prod.fst <;>
        simp [addToBucket, h1b, h2, ih, Ne.symm h1]

theorem nodup_keys_hashMapOf (l : List EmailInfo) :
    ((hashMapOf l).map Prod.fst).Nodup := by
  induction l using List.reverseRecOn with
  | nil => simp [hashMapOf]
  | append_singleton xs e ih =>
    rw [hashMapOf_append, keys_addToBucket]
    by_cases h : e.hash ∈ (hashMapOf xs).map Prod.fst
    · simpa [h] using ih
    · simp [h, List.nodup_append, ih]

theorem lookup_of_mem_of_nodupKeys {m : List (String × List EmailInfo)}
    (hn : (m.map Prod.fst).Nodup) {p : String × List EmailInfo} (hp : p ∈ m) :
    List.lookup p.1 m = some p.2 := by
  induction m with
  | nil => cases hp
  | cons q rest ih =>
    obtain ⟨k, v⟩ := q
    rw [List.map_cons] at hn
    obtain ⟨hq, hrest⟩ := List.nodup_cons.mp hn
    rcases List.mem_cons.mp hp with rfl | hp2
    · simp [List.lookup]
    · have hmem : p.1 ∈ rest.map Prod.fst := List.mem_map_of_mem Prod.fst hp2
      have hne : (p.1 == k) = false :=
        beq_eq_false_iff_ne.mpr (fun hc => hq (hc ▸ hmem))
      simp [List.lookup, hne, ih hrest hp2]

theorem mem_of_lookup_eq_some {m : List (String × List EmailInfo)} {k : String}
    {v : List EmailInfo} (h : List.lookup k m = some v) : (k, v) ∈ m := by
  induction m with
  | nil => simp [List.lookup] at h
  | cons q rest ih =>
    obtain ⟨k2, v2⟩ := q
    by_cases hk : k = k2
    · subst hk
      simp [List.lookup] at h
      simp [h]
    · have hkb : (k == k2) = false := beq_eq_false_iff_ne.mpr hk
      simp only [List.lookup, hkb] at h
      exact List.mem_cons_of_mem _ (ih h)

/-- C4: `findDuplicates` partitions its input by fingerprint and emits
exactly the multi-member buckets: the hash-map keys are distinct, each
bucket holds, in input order, exactly the input records carrying its key,
every input record lands in the bucket of its own fingerprint and in no
other, a group is emitted iff its bucket has more than one member, every
emitted group's members all carry the group's fingerprint, and no group
of size one or zero is emitted. -/
theorem findDuplicates_partition (emails : List EmailInfo) :
    (((hashMapOf emails).map Prod.fst).Nodup) ∧
    (∀ p ∈ hashMapOf emails,
        p.2 = emails.filter (fun e => e.hash == p.1) ∧ p.2 ≠ []) ∧
    (∀ e ∈ emails,
        List.lookup e.hash (hashMapOf emails) =
          some (emails.filter (fun x => x.hash == e.hash)) ∧
        e ∈ emails.filter (fun x => x.hash == e.hash) ∧
        ∀ p ∈ hashMapOf emails, e ∈ p.2 → p.1 = e.hash) ∧
    (∀ g, g ∈ findDuplicates emails ↔
        g.emails = emails.filter (fun e => e.hash == g.hash) ∧
          1 < g.emails.length) ∧
    (∀ g ∈ findDuplicates emails, 1 < g.emails.length ∧
        ∀ m ∈ g.emails, m.hash = g.hash) := by
  have hbucket : ∀ p ∈ hashMapOf emails,
      p.2 = emails.filter (fun e => e.hash == p.1) ∧ p.2 ≠ [] := by
    intro p hp
    have hlk := lookup_of_mem_of_nodupKeys (nodup_keys_hashMapOf emails) hp
    rw [hashMapOf_lookup] at hlk
    by_cases hf : emails.filter (fun e => e.hash == p.1) = []
    · simp [hf] at hlk
    · rw [if_neg hf] at hlk
      have := Option.some.inj hlk
      exact ⟨this.symm, by rw [← this]; exact hf⟩
  have hmemiff : ∀ g, g ∈ findDuplicates emails ↔
      g.emails = emails.filter (fun e => e.hash == g.hash) ∧
        1 < g.emails.length := by
    intro g
    constructor
    · intro hg
      obtain ⟨p, hp, hpe⟩ := List.mem_filterMap.mp hg
      by_cases hlen : p.2.length > 1
      · rw [if_pos hlen] at hpe
        have hgp := Option.some.inj hpe
        obtain ⟨hfil, _⟩ := hbucket p hp
        rw [← hgp]
        exact ⟨hfil, hlen⟩
      · rw [if_neg hlen] at hpe
        cases hpe
    · rintro ⟨hg, hlen⟩
      have hfne : emails.filter (fun e => e.hash == g.hash) ≠ [] := by
        rw [← hg]
        intro hc
        rw [hc] at hlen
        simp at hlen
      have hlk : List.lookup g.hash (hashMapOf emails) =
          some (emails.filter (fun e => e.hash == g.hash)) := by
        rw [hashMapOf_lookup, if_neg hfne]
      have hpmem := mem_of_lookup_eq_some hlk
      refine List.mem_filterMap.mpr ⟨(g.hash, emails.filter (fun e => e.hash == g.hash)), hpmem, ?_⟩
      rw [if_pos (by rw [← hg]; exact hlen)]
      cases g
      simp at hg ⊢
      exact hg.symm
  refine ⟨nodup_keys_hashMapOf emails, hbucket, ?_, hmemiff, ?_⟩
  · intro e he
    have hin : e ∈ emails.filter (fun x => x.hash == e.hash) :=
      List.mem_filter.mpr ⟨he, by simp⟩
    have hne : emails.filter (fun x => x.hash == e.hash) ≠ [] :=
      List.ne_nil_of_mem hin
    refine ⟨by rw [hashMapOf_lookup, if_neg hne], hin, ?_⟩
    intro p hp hep
    obtain ⟨hfil, _⟩ := hbucket p hp
    rw [hfil] at hep
    have := (List.mem_filter.mp hep).2
    exact (beq_iff_eq.mp this).symm
  · intro g hg
    obtain ⟨hfil, hlen⟩ := (hmemiff g).mp hg
    refine ⟨hlen, ?_⟩
    intro m hm
    rw [hfil] at hm
    exact beq_iff_eq.mp (List.mem_filter.mp hm).2

/-- Witness for C4: on a concrete scan with two records sharing a
fingerprint and one singleton, the pair forms an emitted group (and the
theorem's emission criterion evaluates on it). -/
theorem findDuplicates_partition_witness :
    (⟨[wEmail1, wEmail2], "h1"⟩ : DuplicateGroup) ∈ findDuplicates wEmails :=
  ((findDuplicates_partition wEmails).2.2.2.1 ⟨[wEmail1, wEmail2], "h1"⟩).mpr
    (by decide)

theorem hashParts_of_no_readError (parts : List PartEvent)
    (h : (parts.all fun p =>
        match p with | .readError _ => false | _ => true) = true) :
    hashParts parts = .ok (concatAll (parts.filterMap fun p =>
      match p with
      | .part contentType (some content) =>
        if includedPart contentType then some content else none
      | _ => none)) := by
  induction parts with
  | nil => rfl
  | cons p rest ih =>
    cases p with
    | readError m => simp at h
    | part contentType body =>
      rw [List.all_cons] at h
      simp only [Bool.true_and] at h
      rw [hashParts, ih h]
      cases body with
      | none => simp [concatAll]
      | some content =>
        by_cases hct : includedPart contentType = true <;>
          simp [hct, concatAll]

/-- C6: `computeEmailHash` hashes exactly the concatenation of the Subject
header value, the Date header value, and, in part order, the decoded
content of every part whose declared content type starts with text/plain,
text/html or application/; parts of other content types contribute
nothing, and a part whose content fails to decode is omitted without
failing the whole message. -/
theorem computeEmailHash_canonical (sha256hex : String → String)
    (msg : MailMessage)
    (h : (msg.parts.all fun p =>
        match p with | .readError _ => false | _ => true) = true) :
    computeEmailHash sha256hex msg = .ok (sha256hex (specHashInput msg)) := by
  have e1 : (if msg.subject ≠ "" then msg.subject else "") = msg.subject := by
    by_cases hs : msg.subject = "" <;> simp [hs]
  have e2 : (if msg.date ≠ "" then msg.date else "") = msg.date := by
    by_cases hd : msg.date = "" <;> simp [hd]
  simp only [computeEmailHash, e1, e2, hashParts_of_no_readError msg.parts h,
    specHashInput, String.append_assoc]

/-- Witness for C6: on the concrete message the hash input is the subject,
the date, the plain-text content and the html content, in order; the image
part and the undecodable application part contribute nothing. -/
theorem computeEmailHash_canonical_witness :
    computeEmailHash id wMsg = .ok "InvoiceMon, 1 Jan 2024hello<p>hi</p>" := by
  have hs : specHashInput wMsg = "InvoiceMon, 1 Jan 2024hello<p>hi</p>" := by decide
  rw [computeEmailHash_canonical id wMsg (by decide), hs]
  rfl

theorem scanLoop_error_batch (sha : String → String) (mb : String)
    (fetch : Nat → Nat → FetchResult) (n k i : Nat) (e : String)
    (hle : i ≤ n) (herr : (fetch i (min (i + batchSize - 1) n)).err = some e) :
    scanLoop sha mb fetch n (k + 1) i =
      .error ("error fetching messages: " ++ e) := by
  simp only [scanLoop, if_pos hle, herr]

theorem scanLoop_ok_of_no_err (sha : String → String) (mb : String)
    (fetch : Nat → Nat → FetchResult) (n : Nat) :
    ∀ (k i : Nat),
      (∀ j ∈ batchStarts n k i, (fetch j (min (j + batchSize - 1) n)).err = none) →
      scanLoop sha mb fetch n k i =
        .ok ((batchStarts n k i).flatMap fun j =>
          (fetch j (min (j + batchSize - 1) n)).messages.filterMap
            (processMsg sha mb)) := by
  intro k
  induction k with
  | zero =>
    intro i _
    simp [scanLoop, batchStarts]
  | succ k ih =>
    intro i hall
    by_cases hle : i ≤ n
    · have hmem : i ∈ batchStarts n (k + 1) i := by
        simp only [batchStarts, if_pos hle]
        exact List.mem_cons_self _ _
      have herr := hall i hmem
      have hrest : ∀ j ∈ batchStarts n k (i + batchSize),
          (fetch j (min (j + batchSize - 1) n)).err = none := by
        intro j hj
        refine hall j ?_
        simp only [batchStarts, if_pos hle]
        exact List.mem_cons_of_mem _ hj
      conv_lhs => simp only [scanLoop, if_pos hle]
      rw [herr, ih (i + batchSize) hrest]
      conv_rhs => simp only [batchStarts, if_pos hle]
      simp
    · simp [scanLoop, batchStarts, hle]

theorem scanLoop_ok_no_err (sha : String → String) (mb : String)
    (fetch : Nat → Nat → FetchResult) (n : Nat) :
    ∀ (k i : Nat) (l : List EmailInfo), scanLoop sha mb fetch n k i = .ok l →
      ∀ j ∈ batchStarts n k i, (fetch j (min (j + batchSize - 1) n)).err = none := by
  intro k
  induction k with
  | zero =>
    intro i l _ j hj
    simp [batchStarts] at hj
  | succ k ih =>
    intro i l hok j hj
    by_cases hle : i ≤ n
    · simp only [scanLoop, if_pos hle] at hok
      simp only [batchStarts, if_pos hle] at hj
      cases herr : (fetch i (min (i + batchSize - 1) n)).err with
      | some e =>
        rw [herr] at hok
        simp at hok
      | none =>
        rw [herr] at hok
        rcases List.mem_cons.mp hj with rfl | hj2
        · exact herr
        · cases hrec : scanLoop sha mb fetch n k (i + batchSize) with
          | error e =>
            rw [hrec] at hok
            simp at hok
          | ok rest =>
            exact ih (i + batchSize) rest hrec j hj2
    · simp only [batchStarts, if_neg hle] at hj
      cases hj

/-- C8: per batch, `scanMailbox` first drains every delivered record and
only then observes the completion status of the retrieval, and it
propagates that status: a batch whose retrieval reports an error — even
after delivering all of its records — makes the whole mailbox scan return
an error instead of the records collected so far; when every batch
completes cleanly the scan returns exactly the records of all batches in
order, and a scan that returns records implies every visited batch
completed cleanly. -/
theorem scanMailbox_drain_then_status (sha : String → String) (mb : String)
    (fetch : Nat → Nat → FetchResult) (n : Nat) :
    (∀ k i e, i ≤ n → (fetch i (min (i + batchSize - 1) n)).err = some e →
      scanLoop sha mb fetch n (k + 1) i =
        .error ("error fetching messages: " ++ e)) ∧
    ((∀ j ∈ batchStarts n n 1, (fetch j (min (j + batchSize - 1) n)).err = none) →
      scanMailbox sha mb (.ok n) fetch =
        .ok ((batchStarts n n 1).flatMap fun j =>
          (fetch j (min (j + batchSize - 1) n)).messages.filterMap
            (processMsg sha mb))) ∧
    (∀ k i (l : List EmailInfo), scanLoop sha mb fetch n k i = .ok l →
      ∀ j ∈ batchStarts n k i, (fetch j (min (j + batchSize - 1) n)).err = none) ∧
    (∀ e, 0 < n → (fetch 1 (min (1 + batchSize - 1) n)).err = some e →
      scanMailbox sha mb (.ok n) fetch =
        .error ("error fetching messages: " ++ e)) ∧
    scanMailbox sha mb (.ok 0) fetch = .ok [] := by
  refine ⟨?_, ?_, ?_, ?_, rfl⟩
  · intro k i e hle herr
    exact scanLoop_error_batch sha mb fetch n k i e hle herr
  · intro hall
    by_cases hn : n = 0
    · subst hn
      simp [scanMailbox, batchStarts]
    · have h0 : (n == 0) = false := beq_eq_false_iff_ne.mpr hn
      simp only [scanMailbox, h0, Bool.false_eq_true, if_false]
      exact scanLoop_ok_of_no_err sha mb fetch n n 1 hall
  · intro k i l hok
    exact scanLoop_ok_no_err sha mb fetch n k i l hok
  · intro e hn herr
    have h0 : (n == 0) = false := beq_eq_false_iff_ne.mpr (by omega)
    simp only [scanMailbox, h0, Bool.false_eq_true, if_false]
    obtain ⟨k, hk⟩ : ∃ k, n = k + 1 := ⟨n - 1, by omega⟩
    rw [hk]
    exact scanLoop_error_batch sha mb fetch (k + 1) k 1 e (by omega)
      (by rw [← hk]; exact herr)

/-- Witness for C8: a single-batch mailbox of 3 messages whose fetch
delivers one record and then reports an error makes the scan fail with
that error rather than return the delivered record. -/
theorem scanMailbox_drain_then_status_witness :
    scanMailbox id "INBOX" (.ok 3) wFetchErr =
      .error "error fetching messages: boom" :=
  (scanMailbox_drain_then_status id "INBOX" wFetchErr 3).2.2.2.1 "boom"
    (by decide) (by decide)

end Canon

namespace Dedup

theorem containsSub_iff (needle hay : List Char) :
    containsSub needle hay = true ↔ needle <:+: hay := by
  induction hay with
  | nil => simp [containsSub, List.isPrefixOf_iff_prefix]
  | cons c t ih =>
    simp [containsSub, List.isPrefixOf_iff_prefix, ih, List.infix_cons_iff]

/-- C7: `listMailboxes` keeps exactly the server-listed names, in server
order, that contain no excluded substring in their lower-cased form and
that start with the configured target folder when one is set; with a
target folder configured and nothing surviving, it returns a not-found
error instead of an empty list, while with no target folder configured an
empty result is not an error; a listing error is propagated. -/
theorem listMailboxes_filter (targetFolder : String) (boxes : List String) :
    (∀ name, keepBox targetFolder name = true ↔
      (isExcludedFolder name = false ∧
        (targetFolder = "" ∨ hasPrefix name targetFolder = true))) ∧
    (∀ name, isExcludedFolder name = true ↔
      ∃ ex ∈ excludedFolders, ex.data <:+: (toLowerStr name).data) ∧
    (targetFolder = "" →
      listMailboxes targetFolder boxes none =
        .ok (boxes.filter (keepBox targetFolder))) ∧
    (targetFolder ≠ "" → boxes.filter (keepBox targetFolder) ≠ [] →
      listMailboxes targetFolder boxes none =
        .ok (boxes.filter (keepBox targetFolder))) ∧
    (targetFolder ≠ "" → boxes.filter (keepBox targetFolder) = [] →
      listMailboxes targetFolder boxes none =
        .error ("no mailboxes found matching target folder: " ++ targetFolder)) ∧
    (∀ e, listMailboxes targetFolder boxes (some e) = .error e) := by
  refine ⟨?_, ?_, ?_, ?_, ?_, fun e => rfl⟩
  · intro name
    simp [keepBox, Bool.and_eq_true, Bool.or_eq_true, Bool.not_eq_true',
      beq_iff_eq]
  · intro name
    simp [isExcludedFolder, List.any_eq_true, containsSub_iff]
  · intro h
    subst h
    simp [listMailboxes]
  · intro h1 h2
    have hb : (targetFolder != "") = true := bne_iff_ne.mpr h1
    have hl : (List.length (boxes.filter (keepBox targetFolder)) == 0) = false := by
      refine beq_eq_false_iff_ne.mpr ?_
      simpa [List.length_eq_zero] using h2
    simp [listMailboxes, hb, hl]
  · intro h1 h2
    have hb : (targetFolder != "") = true := bne_iff_ne.mpr h1
    simp [listMailboxes, hb, h2]

/-- Witness for C7: a concrete listing with an excluded folder and a
target folder set keeps exactly the prefixed, non-excluded names; with
prefix "Zzz" nothing survives and the not-found error is returned; and
the upper-cased French deleted-items folder is excluded through the
Unicode case mapping (its lower-cased form contains the accented excluded
entry). -/
theorem listMailboxes_filter_witness :
    listMailboxes "INBOX" ["INBOX", "INBOX/Work", "Trash", "Sent"] none =
      .ok ["INBOX", "INBOX/Work"] ∧
    listMailboxes "Zzz" ["INBOX", "Trash"] none =
      .error "no mailboxes found matching target folder: Zzz" ∧
    listMailboxes "" ["Éléments supprimés", "INBOX"] none = .ok ["INBOX"] := by
  refine ⟨?_, ?_, ?_⟩
  · rw [(listMailboxes_filter "INBOX" ["INBOX", "INBOX/Work", "Trash", "Sent"]).2.2.2.1
      (by decide) (by decide)]
    exact congrArg Except.ok (by decide)
  · exact (listMailboxes_filter "Zzz" ["INBOX", "Trash"]).2.2.2.2.1
      (by decide) (by decide)
  · rw [(listMailboxes_filter "" ["Éléments supprimés", "INBOX"]).2.2.1 rfl]
    exact congrArg Except.ok (by decide)

theorem keepOthersAux_of_lt (t : List EmailInfo) :
    ∀ (j : Nat) (c : Int), c < (j : Int) → keepOthersAux c j t = t := by
  induction t with
  | nil => intro j c _; rfl
  | cons e t ih =>
    intro j c hc
    rw [keepOthersAux, if_neg (by omega), ih (j + 1) c (by push_cast; omega)]

theorem keepOthersAux_eraseIdx (t : List EmailInfo) :
    ∀ (j k : Nat), k < t.length →
      keepOthersAux ((j + k : Nat) : Int) j t = t.eraseIdx k := by
  induction t with
  | nil => intro j k hk; simp at hk
  | cons e t ih =>
    intro j k hk
    cases k with
    | zero =>
      rw [keepOthersAux, if_pos (by simp),
        keepOthersAux_of_lt t (j + 1) _ (by push_cast; omega)]
      rfl
    | succ m =>
      rw [keepOthersAux, if_neg (by push_cast; omega),
        show j + (m + 1) = (j + 1) + m by omega,
        ih (j + 1) m (by simpa using hk)]
      rfl

theorem keepOthers_eraseIdx (es : List EmailInfo) (k : Nat)
    (hk : k < es.length) : keepOthers es (k : Int) = es.eraseIdx k := by
  have h := keepOthersAux_eraseIdx es 0 k hk
  rw [Nat.zero_add] at h
  exact h

theorem keepOthers_zero (es : List EmailInfo) : keepOthers es 0 = es.tail := by
  cases es with
  | nil => rfl
  | cons e t =>
    show keepOthersAux 0 0 (e :: t) = t
    rw [keepOthersAux, if_pos (by simp), keepOthersAux_of_lt t 1 0 (by omega)]

theorem buildPlan_auto (dryRun : Bool) :
    ∀ (groups : List DuplicateGroup) (inputs : List (Option String)),
      buildPlan dryRun true groups inputs =
        groups.flatMap fun g => g.emails.tail := by
  intro groups
  induction groups with
  | nil => intro inputs; rfl
  | cons g rest ih =>
    intro inputs
    rw [buildPlan]
    simp [promptForChoice, keepOthers_zero, ih inputs.tail]

theorem buildPlan_skip (g : DuplicateGroup) (rest : List DuplicateGroup)
    (inp : Option String) (inputs : List (Option String))
    (h : promptForChoice g.emails.length false false inp = (-1, false)) :
    buildPlan false false (g :: rest) (inp :: inputs) =
      buildPlan false false rest inputs := by
  rw [buildPlan]
  simp [h]

theorem buildPlan_resolved (g : DuplicateGroup) (rest : List DuplicateGroup)
    (inp : Option String) (inputs : List (Option String)) (k : Nat)
    (hk : k < g.emails.length)
    (h : promptForChoice g.emails.length false false inp = ((k : Int), false)) :
    buildPlan false false (g :: rest) (inp :: inputs) =
      g.emails.eraseIdx k ++ buildPlan false false rest inputs := by
  rw [buildPlan]
  have hne : ((k : Int) != -1) = true := by
    refine bne_iff_ne.mpr ?_
    omega
  simp [h, hne, keepOthers_eraseIdx g.emails k hk]

theorem promptForChoice_manual_range (size : Nat) (inp : Option String) :
    (promptForChoice size false false inp).1 = -1 ∨
      (0 ≤ (promptForChoice size false false inp).1 ∧
        (promptForChoice size false false inp).1 < (size : Int)) := by
  cases inp with
  | none => left; rfl
  | some raw =>
    have heq : promptForChoice size false false (some raw) =
        (if trimSpace raw == "q" || trimSpace raw == "Q" then (-1, true)
         else if trimSpace raw == "s" || trimSpace raw == "S" then (-1, false)
         else
           match atoi (trimSpace raw) with
           | none => (-1, false)
           | some choice =>
             if choice < 1 || choice > (size : Int) then (-1, false)
             else (choice - 1, false)) := rfl
    rw [heq]
    by_cases hq : (trimSpace raw == "q" || trimSpace raw == "Q") = true
    · rw [if_pos hq]
      left
      rfl
    · rw [if_neg hq]
      by_cases hs : (trimSpace raw == "s" || trimSpace raw == "S") = true
      · rw [if_pos hs]
        left
        rfl
      · rw [if_neg hs]
        cases hat : atoi (trimSpace raw) with
        | none =>
          left
          rfl
        | some choice =>
          have hred : (match some choice with
              | none => ((-1 : Int), false)
              | some c =>
                if c < 1 || c > (size : Int) then ((-1 : Int), false)
                else (c - 1, false)) =
              (if choice < 1 || choice > (size : Int) then ((-1 : Int), false)
               else (choice - 1, false)) := rfl
          rw [hred]
          by_cases hc : (decide (choice < 1) || decide (choice > (size : Int))) = true
          · rw [if_pos hc]
            left
            rfl
          · rw [if_neg hc]
            simp only [Bool.or_eq_true, decide_eq_true_eq, not_or, not_lt] at hc
            right
            refine ⟨?_, ?_⟩
            · show (0 : Int) ≤ choice - 1
              omega
            · show choice - 1 < (size : Int)
              omega

/-- C1: for every resolved (non-skipped) duplicate group exactly the
members other than the one at the keep index enter the plan, each exactly
once and in order (`eraseIdx` at the keep index); under the automatic
policy the kept member is the first (index 0), so every group contributes
its tail — a 3-member group contributes exactly the members at indices 1
and 2; a skipped group contributes nothing; and every manual decision is
either a skip or a keep index inside the group. -/
theorem buildPlan_resolution :
    (∀ (es : List EmailInfo) (k : Nat), k < es.length →
      keepOthers es (k : Int) = es.eraseIdx k) ∧
    (∀ (dryRun : Bool) (groups : List DuplicateGroup)
        (inputs : List (Option String)),
      buildPlan dryRun true groups inputs =
        groups.flatMap fun g => g.emails.tail) ∧
    (∀ (g : DuplicateGroup) (rest : List DuplicateGroup) (inp : Option String)
        (inputs : List (Option String)),
      promptForChoice g.emails.length false false inp = (-1, false) →
      buildPlan false false (g :: rest) (inp :: inputs) =
        buildPlan false false rest inputs) ∧
    (∀ (g : DuplicateGroup) (rest : List DuplicateGroup) (inp : Option String)
        (inputs : List (Option String)) (k : Nat),
      k < g.emails.length →
      promptForChoice g.emails.length false false inp = ((k : Int), false) →
      buildPlan false false (g :: rest) (inp :: inputs) =
        g.emails.eraseIdx k ++ buildPlan false false rest inputs) ∧
    (∀ (size : Nat) (inp : Option String),
      (promptForChoice size false false inp).1 = -1 ∨
        (0 ≤ (promptForChoice size false false inp).1 ∧
          (promptForChoice size false false inp).1 < (size : Int))) :=
  ⟨keepOthers_eraseIdx, buildPlan_auto,
    buildPlan_skip, fun g rest inp inputs k hk h =>
      buildPlan_resolved g rest inp inputs k hk h,
    promptForChoice_manual_range⟩

/-- Witness for C1: the 3-member group under the automatic policy yields
exactly its members at indices 1 and 2; keeping index 1 yields the members
at indices 0 and 2; and a trimmed "s" input skips the group, contributing
nothing. -/
theorem buildPlan_resolution_witness :
    buildPlan false true [dGroup] [] = [dE2, dE3] ∧
    keepOthers [dE1, dE2, dE3] ((1 : Nat) : Int) = [dE1, dE3] ∧
    buildPlan false false [dGroup] [some " s "] = [] := by
  refine ⟨?_, ?_, ?_⟩
  · rw [buildPlan_resolution.2.1 false [dGroup] []]
    rfl
  · rw [buildPlan_resolution.1 [dE1, dE2, dE3] 1 (by decide)]
    rfl
  · rw [buildPlan_resolution.2.2.1 dGroup [] (some " s ") [] (by decide)]
    rfl

/-- C5: only setup failures abort the run: a failed connect or a failed
mailbox listing (which includes the empty-target-folder match) produce
the fatal outcome, and once both have succeeded no scan failure, prompt
decision, or failed deletion produces it — a mailbox whose scan fails
contributes nothing while the remaining mailboxes still contribute, and
execution attempts every planned action, pairing each with its own
result and continuing past failures. -/
theorem runMain_error_containment (dryRun autoMode : Bool)
    (scan : String → Except String (List EmailInfo))
    (inputs : List (Option String)) (confirm : Bool)
    (del : EmailInfo → Option String) :
    (∀ e listRes,
      runMain dryRun autoMode (.error e) listRes scan inputs confirm del =
        .fatal ("Failed to connect to IMAP: " ++ e)) ∧
    (∀ e, runMain dryRun autoMode (.ok ()) (.error e) scan inputs confirm del =
      .fatal ("Error listing mailboxes: " ++ e)) ∧
    (∀ boxes msg,
      runMain dryRun autoMode (.ok ()) (.ok boxes) scan inputs confirm del ≠
        .fatal msg) ∧
    (∀ (bs1 bs2 : List String) (bad e : String), scan bad = .error e →
      collectEmails scan (bs1 ++ bad :: bs2) = collectEmails scan (bs1 ++ bs2)) ∧
    (∀ boxes, dryRun = false → confirm = true →
      buildPlan dryRun autoMode
          (findDuplicates (collectEmails scan boxes)) inputs ≠ [] →
      runMain dryRun autoMode (.ok ()) (.ok boxes) scan inputs confirm del =
        .executed ((buildPlan dryRun autoMode
          (findDuplicates (collectEmails scan boxes)) inputs).map
            fun e => (e, del e))) := by
  refine ⟨fun e listRes => rfl, fun e => rfl, ?_, ?_, ?_⟩
  · intro boxes msg
    simp only [runMain]
    split_ifs <;> simp
  · intro bs1 bs2 bad e hbad
    simp [collectEmails, hbad]
  · intro boxes hd hc hplan
    subst hd
    subst hc
    have h0 : (List.length (buildPlan false autoMode
        (findDuplicates (collectEmails scan boxes)) inputs) == 0) = false := by
      refine beq_eq_false_iff_ne.mpr ?_
      simpa [List.length_eq_zero] using hplan
    simp [runMain, h0]

/-- Witness for C5: with one scanning mailbox holding a duplicate pair,
one mailbox whose scan fails, the automatic policy and a delete oracle
that always fails, the run still reaches execution, attempts its one
planned action and records the failure; and dropping the failing mailbox
from the listing leaves the collected records unchanged. -/
theorem runMain_error_containment_witness :
    runMain false true (.ok ()) (.ok ["A", "bad"]) wScan [] true wDel =
      .executed [(dE2, some "delete failed")] ∧
    collectEmails wScan (["A"] ++ "bad" :: []) =
      collectEmails wScan (["A"] ++ []) := by
  constructor
  · rw [(runMain_error_containment false true wScan [] true wDel).2.2.2.2
      ["A", "bad"] rfl rfl (by decide)]
    rfl
  · exact (runMain_error_containment false true wScan [] true wDel).2.2.2.1
      ["A"] [] "bad" "select failed" (by simp [wScan])

end Dedup

end GoImapBackup
